import Mathlib

/-!
Shallow embedding of the realtime collaboration core of the
DynamicContract repository.

Server side (src/unnamed/part_001, `registerRoutes`): the WebSocket
broadcast router — a per-document map `clients : Map<number, Set<WebSocket>>`,
per-connection closure variables `userId`/`contractId`, and the handlers for
`join`, `cursor_move`, `content_change` and transport `close`.

Storage (src/server/storage.ts, `MemStorage`): the contract map touched by
`updateContract` and the presence map touched by `upsertPresence`,
`removePresence`, `getPresenceByContract`.

Client side (src/unnamed/part_012, `WebSocketManager`): reconnect counter,
linear backoff in `attemptReconnect`, counter reset and rejoin in `onopen`,
unconditional `attemptReconnect` in `onclose`.

JavaScript `Map`s are modelled as insertion-ordered association lists
(`lookupA`/`setA`/`removeA`), `Set<WebSocket>` as a duplicate-free list of
connection identifiers, wall-clock instants (`new Date()`) as a `Nat`
supplied by the event, and `crypto.randomUUID()` as a fresh `Nat` supplied
by the event.  The client's `listeners` callback map is not modelled: no
claim concerns callback fan-out.
-/

/-- Association-list lookup, modelling `Map.get` (first matching key). -/
def lookupA {α β : Type} [DecidableEq α] : List (α × β) → α → Option β
  | [], _ => none
  | (k0, v0) :: rest, k => if k0 = k then some v0 else lookupA rest k

/-- Association-list insert/replace, modelling `Map.set`: replaces the
existing entry in place, otherwise appends at the end. -/
def setA {α β : Type} [DecidableEq α] : List (α × β) → α → β → List (α × β)
  | [], k, v => [(k, v)]
  | (k0, v0) :: rest, k, v =>
    if k0 = k then (k, v) :: rest else (k0, v0) :: setA rest k v

/-- Association-list delete, modelling `Map.delete`. -/
def removeA {α β : Type} [DecidableEq α] : List (α × β) → α → List (α × β)
  | [], _ => []
  | (k0, v0) :: rest, k => if k0 = k then rest else (k0, v0) :: removeA rest k

/-- All values of the map, modelling `Array.from(map.values())`. -/
def valuesA {α β : Type} (m : List (α × β)) : List β := m.map Prod.snd

/-- `Set.add`: append the element unless already present. -/
def addToSet (l : List Nat) (w : Nat) : List Nat := if w ∈ l then l else l ++ [w]

/-- Cursor position `{ line, character }`. -/
structure Position where
  line : Nat
  character : Nat
deriving DecidableEq

/-- The fields of a stored contract that the realtime core touches
(`MemStorage.updateContract` spreads `{content, wordCount}` over the
record and stamps `updatedAt`); `title` stands for the untouched fields. -/
structure Contract where
  title : String
  content : String
  wordCount : Nat
  updatedAt : Nat
deriving DecidableEq

/-- A presence record (`presence_data` row held by `MemStorage`). -/
structure PresenceData where
  userId : Nat
  contractId : Nat
  position : Option Position
  isActive : Bool
  lastSeen : Nat
  id : Nat
deriving DecidableEq

/-- `MemStorage.updateContract id {content, wordCount}`: no-op when the id is
absent, otherwise spread-merge of the two fields plus a fresh `updatedAt`. -/
def updateContract (m : List (Nat × Contract)) (id : Nat) (content : String)
    (wordCount : Nat) (now : Nat) : List (Nat × Contract) :=
  match lookupA m id with
  | none => m
  | some k => setA m id { k with content := content, wordCount := wordCount, updatedAt := now }

/-- `MemStorage.upsertPresence`: keyed by the pair (userId, contractId)
(the template-string key is injective on numeric ids); keeps the existing
`id` when present, otherwise uses the fresh one; always restamps `lastSeen`. -/
def upsertPresence (m : List ((Nat × Nat) × PresenceData)) (userId contractId : Nat)
    (position : Option Position) (isActive : Bool) (now freshId : Nat) :
    List ((Nat × Nat) × PresenceData) :=
  let idv := match lookupA m (userId, contractId) with
    | some e => e.id
    | none => freshId
  setA m (userId, contractId)
    { userId := userId, contractId := contractId, position := position,
      isActive := isActive, lastSeen := now, id := idv }

/-- `MemStorage.removePresence`: soft delete — flips `isActive` to false when
the record exists and reports whether it did. -/
def removePresence (m : List ((Nat × Nat) × PresenceData)) (userId contractId : Nat) :
    List ((Nat × Nat) × PresenceData) × Bool :=
  match lookupA m (userId, contractId) with
  | some p => (setA m (userId, contractId) { p with isActive := false }, true)
  | none => (m, false)

/-- `MemStorage.getPresenceByContract`: active records of one contract. -/
def getPresenceByContract (m : List ((Nat × Nat) × PresenceData)) (contractId : Nat) :
    List PresenceData :=
  (valuesA m).filter (fun p => decide (p.contractId = contractId) && p.isActive)

/-- The per-connection closure variables of the `wss.on('connection')`
handler, plus the transport's ready state. -/
structure ConnState where
  userId : Option Nat
  contractId : Option Nat
  isOpen : Bool
deriving DecidableEq

/-- Inbound messages the server switches on. -/
inductive InMsg where
  | join (userId contractId : Option Nat) (position : Option Position)
  | cursorMove (position : Option Position)
  | contentChange (content : String) (wordCount : Option Nat)
deriving DecidableEq

/-- Outbound messages the server emits. -/
inductive OutMsg where
  | presenceUpdate (userId : Option Nat) (position : Option Position) (action : String)
  | cursorUpdate (userId : Option Nat) (position : Option Position)
  | contentUpdate (content : String) (userId : Option Nat) (timestamp : Nat)
  | errorMsg (message : String)
deriving DecidableEq

/-- The whole server-side state: the `clients` registry, the closure
variables of every accepted connection, and the two storage maps. -/
structure ServerState where
  clients : List (Nat × List Nat)
  conns : List (Nat × ConnState)
  contracts : List (Nat × Contract)
  presence : List ((Nat × Nat) × PresenceData)
deriving DecidableEq

/-- `clients.get(contractId)` viewed as a (possibly empty) list. -/
def subsOf (s : ServerState) (contractId : Nat) : List Nat :=
  (lookupA s.clients contractId).getD []

/-- `readyState === WebSocket.OPEN` for a registered connection. -/
def connOpen (s : ServerState) (w : Nat) : Bool :=
  match lookupA s.conns w with
  | some cs => cs.isOpen
  | none => false

/-- `broadcastToContract(contractId, message, excludeWs?)`: send to every
member of the document's client set that is not the excluded socket and is
open. -/
def broadcastToContract (s : ServerState) (contractId : Nat) (msg : OutMsg)
    (excludeWs : Option Nat) : List (Nat × OutMsg) :=
  ((subsOf s contractId).filter
      (fun cl => decide (some cl ≠ excludeWs) && connOpen s cl)).map
    (fun cl => (cl, msg))

/-- The `join` case: assigns both closure variables from the message first,
drops the event when either is falsy, otherwise registers the socket,
upserts presence and broadcasts `presence_update`/`joined` excluding the
sender. -/
def handleJoin (s : ServerState) (w : Nat) (cs : ConnState) (u c : Option Nat)
    (p : Option Position) (now freshId : Nat) : ServerState × List (Nat × OutMsg) :=
  let cs' := { cs with userId := u, contractId := c }
  match u, c with
  | some un, some cn =>
    if un = 0 ∨ cn = 0 then ({ s with conns := setA s.conns w cs' }, [])
    else
      let clients' := setA s.clients cn (addToSet (subsOf s cn) w)
      let presence' := upsertPresence s.presence un cn p true now freshId
      let s' := { s with conns := setA s.conns w cs', clients := clients',
                         presence := presence' }
      (s', broadcastToContract s' cn (.presenceUpdate u p "joined") (some w))
  | _, _ => ({ s with conns := setA s.conns w cs' }, [])

/-- The `cursor_move` case: guarded by truthiness of both closure variables;
upserts presence and broadcasts `cursor_update` excluding the sender. -/
def handleCursorMove (s : ServerState) (w : Nat) (cs : ConnState)
    (p : Option Position) (now freshId : Nat) : ServerState × List (Nat × OutMsg) :=
  match cs.userId, cs.contractId with
  | some un, some cn =>
    if un = 0 ∨ cn = 0 then (s, [])
    else
      let s' := { s with presence := upsertPresence s.presence un cn p true now freshId }
      (s', broadcastToContract s' cn (.cursorUpdate cs.userId p) (some w))
  | _, _ => (s, [])

/-- The `content_change` case: guarded by truthiness of `contractId` only;
persists `{content, wordCount: wordCount || 0}` and broadcasts
`content_update` (with the possibly-absent `userId`) excluding the sender. -/
def handleContentChange (s : ServerState) (w : Nat) (cs : ConnState)
    (content : String) (wc : Option Nat) (now : Nat) :
    ServerState × List (Nat × OutMsg) :=
  match cs.contractId with
  | some cn =>
    if cn = 0 then (s, [])
    else
      let s' := { s with contracts := updateContract s.contracts cn content (wc.getD 0) now }
      (s', broadcastToContract s' cn (.contentUpdate content cs.userId now) (some w))
  | none => (s, [])

/-- One inbound message on one connection (`ws.on('message')` switch). -/
def handleMessage (s : ServerState) (w : Nat) (msg : InMsg) (now freshId : Nat) :
    ServerState × List (Nat × OutMsg) :=
  match lookupA s.conns w with
  | none => (s, [])
  | some cs =>
    match msg with
    | .join u c p => handleJoin s w cs u c p now freshId
    | .cursorMove p => handleCursorMove s w cs p now freshId
    | .contentChange content wc => handleContentChange s w cs content wc now

/-- `ws.on('close')`: the transport goes non-open; when both closure
variables are truthy the handler soft-deletes presence, removes the socket
from its document's set (deleting the entry if it became empty) and
broadcasts `presence_update`/`left` with no exclusion. -/
def handleClose (s : ServerState) (w : Nat) : ServerState × List (Nat × OutMsg) :=
  match lookupA s.conns w with
  | none => (s, [])
  | some cs =>
    let conns' := setA s.conns w { cs with isOpen := false }
    match cs.userId, cs.contractId with
    | some un, some cn =>
      if un = 0 ∨ cn = 0 then ({ s with conns := conns' }, [])
      else
        let presence' := (removePresence s.presence un cn).1
        let clients' :=
          match lookupA s.clients cn with
          | none => s.clients
          | some l =>
            let l' := l.filter (fun x => decide (x ≠ w))
            if l' = [] then removeA s.clients cn else setA s.clients cn l'
        let s' := { s with conns := conns', presence := presence', clients := clients' }
        (s', broadcastToContract s' cn (.presenceUpdate cs.userId none "left") none)
    | _, _ => ({ s with conns := conns' }, [])

/-- `wss.on('connection')`: fresh closure variables, open transport. -/
def handleAccept (s : ServerState) (w : Nat) : ServerState :=
  { s with conns := setA s.conns w { userId := none, contractId := none, isOpen := true } }

/-- Router-level events: a connection is accepted, delivers a message
(with the instant and the fresh uuid the handler would draw), or closes. -/
inductive Ev where
  | accept (w : Nat)
  | msg (w : Nat) (m : InMsg) (now freshId : Nat)
  | close (w : Nat)
deriving DecidableEq

/-- One router step. -/
def step (s : ServerState) : Ev → ServerState × List (Nat × OutMsg)
  | .accept w => (handleAccept s w, [])
  | .msg w m now freshId => handleMessage s w m now freshId
  | .close w => handleClose s w

/-- Process a whole event trace, accumulating the emitted sends. -/
def run (s : ServerState) : List Ev → ServerState × List (Nat × OutMsg)
  | [] => (s, [])
  | e :: es =>
    let r := step s e
    let r' := run r.1 es
    (r'.1, r.2 ++ r'.2)

/-- An initial server state over a given contract store. -/
def ServerState.mkInit (contracts : List (Nat × Contract)) : ServerState :=
  { clients := [], conns := [], contracts := contracts, presence := [] }

/-- No retained subscription set is empty. -/
def NoEmptySets (s : ServerState) : Prop := ∀ p ∈ s.clients, p.2 ≠ []

/-- Each connection appears in at most one document's subscription set. -/
def AtMostOne (s : ServerState) : Prop :=
  ∀ d1 l1 d2 l2 w, (d1, l1) ∈ s.clients → (d2, l2) ∈ s.clients →
    w ∈ l1 → w ∈ l2 → d1 = d2

/-- Set membership is tracked by the member's own `contractId` variable. -/
def MemDoc (s : ServerState) : Prop :=
  ∀ d l w, (d, l) ∈ s.clients → w ∈ l →
    ∃ cs, lookupA s.conns w = some cs ∧ cs.contractId = some d

/-- Side condition on one event: accepted sockets are fresh, and a
connection's `join` events all target its current document (or it has
none yet).  This is how the actual client uses a socket: one `join` per
connection. -/
def stepOK (s : ServerState) : Ev → Bool
  | .accept w => decide (lookupA s.conns w = none)
  | .msg w m _ _ =>
    match m with
    | .join _ c _ =>
      match lookupA s.conns w with
      | none => true
      | some cs => decide (cs.contractId = none) || decide (cs.contractId = c)
    | _ => true
  | .close _ => true

/-- The side condition along a whole trace. -/
def runOK (s : ServerState) : List Ev → Bool
  | [] => true
  | e :: es => stepOK s e && runOK (step s e).1 es

/-- Every stored presence entry is keyed by its record's own
(userId, contractId) pair — the `MemStorage` map maintains this by
construction. -/
abbrev KeyConsistent (m : List ((Nat × Nat) × PresenceData)) : Prop :=
  ∀ p ∈ m, p.1 = (p.2.userId, p.2.contractId)

/-- The map's keys are pairwise distinct (a JS `Map` guarantees this). -/
abbrev KeysNodup {α β : Type} (m : List (α × β)) : Prop := (m.map Prod.fst).Nodup

/-- Client-side `WebSocketManager` state: the transport handle (present or
null), the reconnect counter and the two backoff constants. -/
structure WebSocketManager where
  ws : Option Unit
  reconnectAttempts : Nat
  maxReconnectAttempts : Nat
  reconnectDelay : Nat
deriving DecidableEq

/-- The manager as constructed: no socket, counter 0, at most 5 attempts,
1000 ms base delay. -/
def WebSocketManager.start : WebSocketManager :=
  { ws := some (), reconnectAttempts := 0, maxReconnectAttempts := 5,
    reconnectDelay := 1000 }

/-- `connect` succeeding and `onopen` firing: the counter resets to 0 and
the manager sends `join` with the fixed position `{line: 0, character: 0}`. -/
def connectOnOpen (m : WebSocketManager) (userId contractId : Nat) :
    WebSocketManager × InMsg :=
  ({ m with ws := some (), reconnectAttempts := 0 },
   InMsg.join (some userId) (some contractId) (some ⟨0, 0⟩))

/-- `disconnect()`: closes the socket and nulls the handle.  The transport
close event this provokes still fires the `onclose` handler. -/
def WebSocketManager.disconnect (m : WebSocketManager) : WebSocketManager :=
  { m with ws := none }

/-- `attemptReconnect`: below the budget, bump the counter and schedule a
retry after `reconnectDelay * reconnectAttempts` (post-increment) — a
linear, not exponential, backoff; at the budget, do nothing. -/
def attemptReconnect (m : WebSocketManager) : WebSocketManager × Option Nat :=
  if m.reconnectAttempts < m.maxReconnectAttempts then
    ({ m with reconnectAttempts := m.reconnectAttempts + 1 },
     some (m.reconnectDelay * (m.reconnectAttempts + 1)))
  else (m, none)

/-- The `onclose` handler: it calls `attemptReconnect` unconditionally —
there is no flag distinguishing a close provoked by `disconnect()`. -/
def onTransportClose (m : WebSocketManager) : WebSocketManager × Option Nat :=
  attemptReconnect m

/-- The scheduled delays over `n` consecutive failed connection attempts. -/
def reconnectDelays : WebSocketManager → Nat → List (Option Nat)
  | _, 0 => []
  | m, n + 1 =>
    let r := attemptReconnect m
    r.2 :: reconnectDelays r.1 n

/-- A stored contract used by the concrete scenarios. -/
def sampleContract : Contract :=
  { title := "Service Agreement", content := "orig", wordCount := 0, updatedAt := 0 }

/-- Two connections both joined to document 7. -/
def joinState : ServerState :=
  (run (ServerState.mkInit [(7, sampleContract)])
    [.accept 0, .accept 1,
     .msg 0 (.join (some 1) (some 7) (some ⟨0, 0⟩)) 1 100,
     .msg 1 (.join (some 2) (some 7) (some ⟨0, 0⟩)) 2 101]).1

/-- User 1 joins document 7, moves the cursor to (2,5), then drops. -/
def c5dropTrace : List Ev :=
  [.accept 0, .msg 0 (.join (some 1) (some 7) (some ⟨0, 0⟩)) 1 100,
   .msg 0 (.cursorMove (some ⟨2, 5⟩)) 2 101, .close 0]

/-- The server state at the drop. -/
def c5srvDrop : ServerState := (run (ServerState.mkInit [(7, sampleContract)]) c5dropTrace).1

/-- The server state after the manager's automatic rejoin on reopen. -/
def c5srvFinal : ServerState :=
  (run c5srvDrop [.accept 1, .msg 1 (connectOnOpen WebSocketManager.start 1 7).2 3 102]).1

/-- A trace whose joins each target a single document per connection. -/
def c4goodTrace : List Ev :=
  [.accept 0, .msg 0 (.join (some 1) (some 7) none) 1 10,
   .accept 1, .msg 1 (.join (some 2) (some 7) none) 2 11, .close 0]

/-- A single freshly accepted connection. -/
def acceptState : ServerState := (run (ServerState.mkInit []) [Ev.accept 0]).1

/-- The drop state with the reopened (accepted) transport, before rejoin. -/
def c5srvReopen : ServerState := (run c5srvDrop [Ev.accept 1]).1

/-- A concrete presence record. -/
def presRec : PresenceData :=
  { userId := 1, contractId := 7, position := some ⟨2, 5⟩, isActive := true,
    lastSeen := 4, id := 42 }

/-- A one-record presence store. -/
def presStore : List ((Nat × Nat) × PresenceData) := [((1, 7), presRec)]

/-! ### Association-list lemmas -/

theorem lookupA_setA_self {α β : Type} [DecidableEq α] (m : List (α × β)) (k : α) (v : β) :
    lookupA (setA m k v) k = some v := by
  induction m with
  | nil => simp [setA, lookupA]
  | cons p rest ih =>
    obtain ⟨k0, v0⟩ := p
    by_cases h : k0 = k
    · simp [setA, h, lookupA]
    · simp [setA, h, lookupA, ih]

theorem lookupA_setA_ne {α β : Type} [DecidableEq α] (m : List (α × β)) (k k' : α) (v : β)
    (h : k' ≠ k) : lookupA (setA m k v) k' = lookupA m k' := by
  have hk1 : ¬ (k = k') := fun hh => h hh.symm
  induction m with
  | nil => simp [setA, lookupA, hk1]
  | cons p rest ih =>
    obtain ⟨k0, v0⟩ := p
    by_cases h0 : k0 = k
    · have hk2 : ¬ (k0 = k') := fun hh => h (h0.symm.trans hh).symm
      simp [setA, h0, lookupA, hk1, hk2]
    · simp only [setA, if_neg h0, lookupA]
      by_cases h1 : k0 = k'
      · simp [h1]
      · simp [h1, ih]

theorem mem_setA {α β : Type} [DecidableEq α] {m : List (α × β)} {k : α} {v : β}
    {p : α × β} (h : p ∈ setA m k v) : p = (k, v) ∨ p ∈ m := by
  induction m with
  | nil => simpa [setA] using h
  | cons q rest ih =>
    obtain ⟨k0, v0⟩ := q
    by_cases h0 : k0 = k
    · simp only [setA, if_pos h0, List.mem_cons] at h
      rcases h with h | h
      · exact Or.inl h
      · exact Or.inr (List.mem_cons_of_mem _ h)
    · simp only [setA, if_neg h0, List.mem_cons] at h
      rcases h with h | h
      · exact Or.inr (by simp [h])
      · rcases ih h with h' | h'
        · exact Or.inl h'
        · exact Or.inr (List.mem_cons_of_mem _ h')

theorem lookupA_mem {α β : Type} [DecidableEq α] {m : List (α × β)} {k : α} {v : β}
    (h : lookupA m k = some v) : (k, v) ∈ m := by
  induction m with
  | nil => simp [lookupA] at h
  | cons q rest ih =>
    obtain ⟨k0, v0⟩ := q
    by_cases h0 : k0 = k
    · simp only [lookupA, if_pos h0] at h
      injection h with h
      exact List.mem_cons.mpr (Or.inl (by rw [h0, h]))
    · simp only [lookupA, if_neg h0] at h
      exact List.mem_cons_of_mem _ (ih h)

theorem mem_values_setA {α β : Type} [DecidableEq α] (m : List (α × β)) (k : α) (v : β) :
    v ∈ valuesA (setA m k v) := by
  induction m with
  | nil => simp [setA, valuesA]
  | cons q rest ih =>
    obtain ⟨k0, v0⟩ := q
    by_cases h0 : k0 = k
    · simp [setA, h0, valuesA]
    · simp only [setA, if_neg h0, valuesA, List.map_cons, List.mem_cons]
      exact Or.inr ih

theorem mem_removeA {α β : Type} [DecidableEq α] {m : List (α × β)} {k : α}
    {p : α × β} (h : p ∈ removeA m k) : p ∈ m := by
  induction m with
  | nil => simp [removeA] at h
  | cons q rest ih =>
    obtain ⟨k0, v0⟩ := q
    by_cases h0 : k0 = k
    · simp only [removeA, if_pos h0] at h
      exact List.mem_cons_of_mem _ h
    · simp only [removeA, if_neg h0, List.mem_cons] at h
      rcases h with h | h
      · simp [h]
      · exact List.mem_cons_of_mem _ (ih h)

theorem keys_setA_cases {α β : Type} [DecidableEq α] {m : List (α × β)} {k x : α} {v : β}
    (h : x ∈ (setA m k v).map Prod.fst) : x = k ∨ x ∈ m.map Prod.fst := by
  rcases List.mem_map.mp h with ⟨p, hp, hx⟩
  rcases mem_setA hp with h' | h'
  · left
    subst hx
    rw [h']
  · exact Or.inr (List.mem_map.mpr ⟨p, h', hx⟩)

theorem keysNodup_setA {α β : Type} [DecidableEq α] {m : List (α × β)} (k : α) (v : β)
    (h : KeysNodup m) : KeysNodup (setA m k v) := by
  induction m with
  | nil => simp [setA, KeysNodup]
  | cons q rest ih =>
    obtain ⟨k0, v0⟩ := q
    simp only [KeysNodup, List.map_cons, List.nodup_cons] at h
    by_cases h0 : k0 = k
    · subst h0
      simpa [setA, KeysNodup, List.nodup_cons] using h
    · simp only [setA, if_neg h0, KeysNodup, List.map_cons, List.nodup_cons]
      refine ⟨fun hmem => ?_, ih h.2⟩
      rcases keys_setA_cases hmem with h' | h'
      · exact h0 h'
      · exact h.1 h'

/-! ### Presence-store lemmas -/

theorem keyConsistent_setA {m : List ((Nat × Nat) × PresenceData)} {k : Nat × Nat}
    {v : PresenceData} (hc : KeyConsistent m) (hv : k = (v.userId, v.contractId)) :
    KeyConsistent (setA m k v) := by
  intro p hp
  rcases mem_setA hp with h | h
  · subst h
    exact hv
  · exact hc p h

theorem getPresence_filter_none {m : List ((Nat × Nat) × PresenceData)} {u c : Nat}
    (hc : KeyConsistent m) (hk : (u, c) ∉ m.map Prod.fst) :
    (valuesA m).filter
      (fun r => decide (r.contractId = c) && r.isActive && decide (r.userId = u)) = [] := by
  rw [List.filter_eq_nil_iff]
  intro r hr
  rcases List.mem_map.mp hr with ⟨p, hp, hval⟩
  have hkey := hc p hp
  intro habs
  simp only [Bool.and_eq_true, decide_eq_true_eq] at habs
  apply hk
  refine List.mem_map.mpr ⟨p, hp, ?_⟩
  rw [hkey, hval]
  exact congrArg₂ Prod.mk habs.2 habs.1.1

theorem values_filter_key (m : List ((Nat × Nat) × PresenceData)) (u c : Nat)
    (hc : KeyConsistent m) (hn : KeysNodup m) :
    (valuesA m).filter
        (fun r => decide (r.contractId = c) && r.isActive && decide (r.userId = u)) =
      (match lookupA m (u, c) with
       | some r => if r.isActive then [r] else []
       | none => []) := by
  induction m with
  | nil => simp [valuesA, lookupA]
  | cons q rest ih =>
    obtain ⟨k0, v0⟩ := q
    have hkey : k0 = (v0.userId, v0.contractId) := hc _ (List.mem_cons_self _ _)
    have hcr : KeyConsistent rest := fun p hp => hc p (List.mem_cons_of_mem _ hp)
    have hnr : KeysNodup rest := by
      simp only [KeysNodup, List.map_cons, List.nodup_cons] at hn
      exact hn.2
    by_cases h0 : k0 = (u, c)
    · have hv0u : v0.userId = u := by
        have := congrArg Prod.fst (hkey.symm.trans h0)
        simpa using this
      have hv0c : v0.contractId = c := by
        have := congrArg Prod.snd (hkey.symm.trans h0)
        simpa using this
      have hnotin : (u, c) ∉ rest.map Prod.fst := by
        simp only [KeysNodup, List.map_cons, List.nodup_cons] at hn
        rw [← h0]
        exact hn.1
      have hrest := getPresence_filter_none hcr hnotin
      simp only [valuesA] at hrest
      simp only [valuesA, List.map_cons, List.filter_cons, lookupA, if_pos h0]
      by_cases ha : v0.isActive
      · simp [hv0u, hv0c, ha, hrest]
      · simp [hv0u, hv0c, ha, hrest]
    · have hne : ¬ (v0.contractId = c ∧ v0.userId = u) := by
        intro habs
        apply h0
        rw [hkey]
        exact congrArg₂ Prod.mk habs.2 habs.1
      simp only [valuesA, List.map_cons, List.filter_cons, lookupA, if_neg h0]
      have hih := ih hcr hnr
      simp only [valuesA] at hih
      by_cases hcc : v0.contractId = c
      · have huu : ¬ (v0.userId = u) := fun hu => hne ⟨hcc, hu⟩
        simp [hcc, huu, hih]
      · simp [hcc, hih]

theorem getPresence_filter_user (m : List ((Nat × Nat) × PresenceData)) (u c : Nat)
    (hc : KeyConsistent m) (hn : KeysNodup m) :
    ((getPresenceByContract m c).filter (fun r => decide (r.userId = u))) =
      (match lookupA m (u, c) with
       | some r => if r.isActive then [r] else []
       | none => []) := by
  have hcomp : ((getPresenceByContract m c).filter (fun r => decide (r.userId = u))) =
      (valuesA m).filter
        (fun r => decide (r.contractId = c) && r.isActive && decide (r.userId = u)) := by
    simp [getPresenceByContract, List.filter_filter, Bool.and_comm, Bool.and_left_comm,
      Bool.and_assoc]
  rw [hcomp]
  exact values_filter_key m u c hc hn

/-! ### Broadcast lemmas -/

theorem mem_broadcastToContract {s : ServerState} {d : Nat} {msg : OutMsg}
    {ex : Option Nat} {r : Nat} {msg' : OutMsg} :
    (r, msg') ∈ broadcastToContract s d msg ex ↔
      (msg' = msg ∧ r ∈ subsOf s d ∧ some r ≠ ex ∧ connOpen s r = true) := by
  simp only [broadcastToContract, List.mem_map, List.mem_filter, Bool.and_eq_true,
    decide_eq_true_eq, Prod.mk.injEq]
  constructor
  · rintro ⟨cl, ⟨hmem, hne, hopen⟩, hcl, hmsg⟩
    subst hcl
    exact ⟨hmsg.symm, hmem, hne, hopen⟩
  · rintro ⟨hmsg, hmem, hne, hopen⟩
    exact ⟨r, ⟨hmem, hne, hopen⟩, rfl, hmsg.symm⟩

theorem broadcast_all_ne (s : ServerState) (d : Nat) (msg : OutMsg) (w : Nat) :
    (broadcastToContract s d msg (some w)).all (fun x => decide (x.1 ≠ w)) = true := by
  rw [List.all_eq_true]
  rintro ⟨r, msg'⟩ hx
  rcases mem_broadcastToContract.mp hx with ⟨_, _, hne, _⟩
  simpa using fun hh => hne (by rw [hh])

/-! ### Registry-shape lemmas -/

theorem addToSet_ne_nil (l : List Nat) (w : Nat) : addToSet l w ≠ [] := by
  unfold addToSet
  by_cases h : w ∈ l
  · simp only [if_pos h]
    intro habs
    rw [habs] at h
    exact (List.not_mem_nil w) h
  · simp [if_neg h]

theorem mem_addToSet {l : List Nat} {w w' : Nat} (h : w' ∈ addToSet l w) :
    w' ∈ l ∨ w' = w := by
  unfold addToSet at h
  by_cases h0 : w ∈ l
  · rw [if_pos h0] at h
    exact Or.inl h
  · rw [if_neg h0] at h
    rcases List.mem_append.mp h with h | h
    · exact Or.inl h
    · simp only [List.mem_singleton] at h
      exact Or.inr h

theorem memDoc_congr {s s' : ServerState} (hc : s'.clients = s.clients)
    (hn : s'.conns = s.conns) (h : MemDoc s) : MemDoc s' := by
  intro d l w hdl hw
  rw [hc] at hdl
  rw [hn]
  exact h d l w hdl hw

theorem handleCursorMove_fields (s : ServerState) (w : Nat) (cs : ConnState)
    (p : Option Position) (now freshId : Nat) :
    (handleCursorMove s w cs p now freshId).1.clients = s.clients ∧
    (handleCursorMove s w cs p now freshId).1.conns = s.conns := by
  unfold handleCursorMove
  split
  · split
    · exact ⟨rfl, rfl⟩
    · exact ⟨rfl, rfl⟩
  · exact ⟨rfl, rfl⟩

theorem handleContentChange_fields (s : ServerState) (w : Nat) (cs : ConnState)
    (content : String) (wc : Option Nat) (now : Nat) :
    (handleContentChange s w cs content wc now).1.clients = s.clients ∧
    (handleContentChange s w cs content wc now).1.conns = s.conns := by
  unfold handleContentChange
  split
  · split
    · exact ⟨rfl, rfl⟩
    · exact ⟨rfl, rfl⟩
  · exact ⟨rfl, rfl⟩

theorem handleJoin_conns (s : ServerState) (w : Nat) (cs : ConnState) (u c : Option Nat)
    (p : Option Position) (now freshId : Nat) :
    (handleJoin s w cs u c p now freshId).1.conns =
      setA s.conns w { cs with userId := u, contractId := c } := by
  unfold handleJoin
  split
  · split
    · rfl
    · rfl
  · rfl

theorem noEmpty_handleJoin (s : ServerState) (w : Nat) (cs : ConnState) (u c : Option Nat)
    (p : Option Position) (now freshId : Nat) (h : NoEmptySets s) :
    NoEmptySets (handleJoin s w cs u c p now freshId).1 := by
  unfold handleJoin
  split
  · split
    · exact h
    · intro q hq
      rcases mem_setA hq with h' | h'
      · subst h'
        exact addToSet_ne_nil _ _
      · exact h q h'
  · exact h

theorem noEmpty_handleClose (s : ServerState) (w : Nat) (h : NoEmptySets s) :
    NoEmptySets (handleClose s w).1 := by
  unfold handleClose
  split
  · exact h
  · rename_i cs hcw
    split
    · rename_i un cn hu hc
      split
      · exact h
      · rename_i hguard
        intro q hq
        rcases hlc : lookupA s.clients cn with _ | l
        · simp only [hlc] at hq
          exact h q hq
        · simp only [hlc] at hq
          by_cases hl : List.filter (fun x => decide (x ≠ w)) l = []
          · rw [if_pos hl] at hq
            exact h q (mem_removeA hq)
          · rw [if_neg hl] at hq
            rcases mem_setA hq with h' | h'
            · subst h'
              exact hl
            · exact h q h'
    · exact h

theorem noEmpty_step (s : ServerState) (e : Ev) (h : NoEmptySets s) :
    NoEmptySets (step s e).1 := by
  cases e with
  | accept w => exact h
  | msg w m now freshId =>
    simp only [step, handleMessage]
    rcases hcw : lookupA s.conns w with _ | cs
    · exact h
    · cases m with
      | join u c p => exact noEmpty_handleJoin s w cs u c p now freshId h
      | cursorMove p =>
        intro q hq
        rw [(handleCursorMove_fields s w cs p now freshId).1] at hq
        exact h q hq
      | contentChange content wc =>
        intro q hq
        rw [(handleContentChange_fields s w cs content wc now).1] at hq
        exact h q hq
  | close w => exact noEmpty_handleClose s w h

theorem noEmpty_run (s : ServerState) (evs : List Ev) (h : NoEmptySets s) :
    NoEmptySets (run s evs).1 := by
  induction evs generalizing s with
  | nil => exact h
  | cons e es ih => exact ih (step s e).1 (noEmpty_step s e h)

theorem lookup_after_setA_keep {conns : List (Nat × ConnState)} {w w' : Nat}
    {cs cs2 : ConnState} (csNew : ConnState) (hcw : lookupA conns w = some cs)
    (hcs2 : lookupA conns w' = some cs2) (hcid : csNew.contractId = cs.contractId)
    {d : Nat} (h : cs2.contractId = some d) :
    ∃ cs3, lookupA (setA conns w csNew) w' = some cs3 ∧ cs3.contractId = some d := by
  by_cases hww : w' = w
  · subst hww
    rw [hcw] at hcs2
    injection hcs2 with h2
    refine ⟨csNew, lookupA_setA_self _ _ _, ?_⟩
    rw [hcid, h2]
    exact h
  · refine ⟨cs2, ?_, h⟩
    rw [lookupA_setA_ne _ _ _ _ hww]
    exact hcs2

theorem lookup_after_setA_join {conns : List (Nat × ConnState)} {w w' : Nat}
    {cs cs2 : ConnState} (u c : Option Nat) (hcw : lookupA conns w = some cs)
    (hok : cs.contractId = none ∨ cs.contractId = c)
    (hcs2 : lookupA conns w' = some cs2) {d : Nat} (h : cs2.contractId = some d) :
    ∃ cs3, lookupA (setA conns w { cs with userId := u, contractId := c }) w' = some cs3 ∧
      cs3.contractId = some d := by
  by_cases hww : w' = w
  · subst hww
    rw [hcw] at hcs2
    injection hcs2 with h2
    rw [h2] at hok
    rcases hok with ho | ho
    · rw [ho] at h
      exact absurd h (by simp)
    · refine ⟨_, lookupA_setA_self _ _ _, ?_⟩
      show c = some d
      rw [← ho]
      exact h
  · refine ⟨cs2, ?_, h⟩
    rw [lookupA_setA_ne _ _ _ _ hww]
    exact hcs2

theorem memDoc_handleJoin (s : ServerState) (w : Nat) (cs : ConnState) (u c : Option Nat)
    (p : Option Position) (now freshId : Nat) (hcw : lookupA s.conns w = some cs)
    (hok : cs.contractId = none ∨ cs.contractId = c) (hm : MemDoc s) :
    MemDoc (handleJoin s w cs u c p now freshId).1 := by
  unfold handleJoin
  split
  · rename_i un cn
    split
    · intro d l w' hdl hw'
      obtain ⟨cs2, hcs2, hcid⟩ := hm d l w' hdl hw'
      exact lookup_after_setA_join (some un) (some cn) hcw hok hcs2 hcid
    · intro d l w' hdl hw'
      rcases mem_setA hdl with hdl' | hdl'
      · injection hdl' with hd hl
        subst hd
        subst hl
        rcases mem_addToSet hw' with hmem | hmem
        · rcases hsc : lookupA s.clients d with _ | lx
          · rw [subsOf, hsc] at hmem
            exact absurd hmem (List.not_mem_nil w')
          · rw [subsOf, hsc] at hmem
            obtain ⟨cs2, hcs2, hcid⟩ := hm d lx w' (lookupA_mem hsc) hmem
            exact lookup_after_setA_join (some un) (some d) hcw hok hcs2 hcid
        · subst hmem
          exact ⟨_, lookupA_setA_self _ _ _, rfl⟩
      · obtain ⟨cs2, hcs2, hcid⟩ := hm d l w' hdl' hw'
        exact lookup_after_setA_join (some un) (some cn) hcw hok hcs2 hcid
  · intro d l w' hdl hw'
    obtain ⟨cs2, hcs2, hcid⟩ := hm d l w' hdl hw'
    exact lookup_after_setA_join u c hcw hok hcs2 hcid

theorem memDoc_handleClose (s : ServerState) (w : Nat) (hm : MemDoc s) :
    MemDoc (handleClose s w).1 := by
  unfold handleClose
  split
  · exact hm
  · rename_i cs hcw
    split
    · rename_i un cn hu hc
      split
      · intro d l w' hdl hw'
        obtain ⟨cs2, hcs2, hcid⟩ := hm d l w' hdl hw'
        exact lookup_after_setA_keep { cs with isOpen := false } hcw hcs2 rfl hcid
      · rename_i hguard
        intro d l w' hdl hw'
        rcases hlc : lookupA s.clients cn with _ | lx
        · simp only [hlc] at hdl
          obtain ⟨cs2, hcs2, hcid⟩ := hm d l w' hdl hw'
          exact lookup_after_setA_keep { cs with isOpen := false } hcw hcs2 rfl hcid
        · simp only [hlc] at hdl
          by_cases hl : List.filter (fun x => decide (x ≠ w)) lx = []
          · rw [if_pos hl] at hdl
            obtain ⟨cs2, hcs2, hcid⟩ := hm d l w' (mem_removeA hdl) hw'
            exact lookup_after_setA_keep { cs with isOpen := false } hcw hcs2 rfl hcid
          · rw [if_neg hl] at hdl
            rcases mem_setA hdl with hdl' | hdl'
            · injection hdl' with hd hll
              subst hd
              subst hll
              obtain ⟨hmem, hne⟩ := List.mem_filter.mp hw'
              obtain ⟨cs2, hcs2, hcid⟩ := hm d lx w' (lookupA_mem hlc) hmem
              exact lookup_after_setA_keep { cs with isOpen := false } hcw hcs2 rfl hcid
            · obtain ⟨cs2, hcs2, hcid⟩ := hm d l w' hdl' hw'
              exact lookup_after_setA_keep { cs with isOpen := false } hcw hcs2 rfl hcid
    · intro d l w' hdl hw'
      obtain ⟨cs2, hcs2, hcid⟩ := hm d l w' hdl hw'
      exact lookup_after_setA_keep { cs with isOpen := false } hcw hcs2 rfl hcid

theorem memDoc_step (s : ServerState) (e : Ev) (hm : MemDoc s) (hok : stepOK s e = true) :
    MemDoc (step s e).1 := by
  cases e with
  | accept w =>
    simp only [stepOK, decide_eq_true_eq] at hok
    simp only [step, handleAccept]
    intro d l w' hdl hw'
    obtain ⟨cs2, hcs2, hcid⟩ := hm d l w' hdl hw'
    have hne : w' ≠ w := by
      intro hh
      rw [hh, hok] at hcs2
      exact Option.noConfusion hcs2
    refine ⟨cs2, ?_, hcid⟩
    rw [lookupA_setA_ne _ _ _ _ hne]
    exact hcs2
  | msg w m now freshId =>
    rcases hcw : lookupA s.conns w with _ | cs
    · simp only [step, handleMessage, hcw]
      exact hm
    · cases m with
      | join u c p =>
        simp only [step, handleMessage, hcw]
        simp only [stepOK, hcw, Bool.or_eq_true, decide_eq_true_eq] at hok
        exact memDoc_handleJoin s w cs u c p now freshId hcw hok hm
      | cursorMove p =>
        simp only [step, handleMessage, hcw]
        exact memDoc_congr (handleCursorMove_fields s w cs p now freshId).1
          (handleCursorMove_fields s w cs p now freshId).2 hm
      | contentChange content wc =>
        simp only [step, handleMessage, hcw]
        exact memDoc_congr (handleContentChange_fields s w cs content wc now).1
          (handleContentChange_fields s w cs content wc now).2 hm
  | close w => exact memDoc_handleClose s w hm

theorem memDoc_run (s : ServerState) (evs : List Ev) (hm : MemDoc s)
    (hok : runOK s evs = true) : MemDoc (run s evs).1 := by
  induction evs generalizing s with
  | nil => exact hm
  | cons e es ih =>
    simp only [runOK, Bool.and_eq_true] at hok
    exact ih (step s e).1 (memDoc_step s e hm hok.1) hok.2

theorem memDoc_atMostOne (s : ServerState) (hm : MemDoc s) : AtMostOne s := by
  intro d1 l1 d2 l2 w h1 h2 hw1 hw2
  obtain ⟨csa, hcsa, hca⟩ := hm d1 l1 w h1 hw1
  obtain ⟨csb, hcsb, hcb⟩ := hm d2 l2 w h2 hw2
  rw [hcsa] at hcsb
  injection hcsb with h
  rw [← h] at hcb
  rw [hca] at hcb
  exact Option.some.inj hcb

/-! ### Claim theorems -/

/-- C6: the client reconnection schedule allows at most the fixed maximum
number of attempts (5), the delay before attempt k is k times the base
delay (1000 ms) — linear, not exponential —, the counter resets to zero on
any successful open, and once the budget is exhausted `attemptReconnect`
does nothing (no retry is scheduled, no error is thrown). -/
theorem reconnect_schedule_linear_bounded (m : WebSocketManager) (u c : Nat) :
    ((attemptReconnect m).2 =
      if m.reconnectAttempts < m.maxReconnectAttempts
      then some (m.reconnectDelay * (m.reconnectAttempts + 1)) else none) ∧
    ((attemptReconnect m).1.reconnectAttempts =
      if m.reconnectAttempts < m.maxReconnectAttempts
      then m.reconnectAttempts + 1 else m.reconnectAttempts) ∧
    ((connectOnOpen m u c).1.reconnectAttempts = 0) ∧
    (m.maxReconnectAttempts ≤ m.reconnectAttempts → attemptReconnect m = (m, none)) ∧
    (WebSocketManager.start.maxReconnectAttempts = 5 ∧
      WebSocketManager.start.reconnectDelay = 1000) ∧
    (reconnectDelays WebSocketManager.start 6 =
      [some 1000, some 2000, some 3000, some 4000, some 5000, none]) := by
  refine ⟨?_, ?_, rfl, ?_, ⟨rfl, rfl⟩, by decide⟩
  · by_cases hc : m.reconnectAttempts < m.maxReconnectAttempts <;>
      simp [attemptReconnect, hc]
  · by_cases hc : m.reconnectAttempts < m.maxReconnectAttempts <;>
      simp [attemptReconnect, hc]
  · intro h
    simp [attemptReconnect, Nat.not_lt.mpr h]

/-- C6 witness: at the exhausted budget (5 of 5 attempts used) the manager
stops retrying; the concrete schedule from a fresh manager is the linear
1000, 2000, 3000, 4000, 5000 and then nothing. -/
theorem reconnect_schedule_witness :
    attemptReconnect
        { ws := none, reconnectAttempts := 5, maxReconnectAttempts := 5,
          reconnectDelay := 1000 } =
      ({ ws := none, reconnectAttempts := 5, maxReconnectAttempts := 5,
         reconnectDelay := 1000 }, none) ∧
    reconnectDelays WebSocketManager.start 6 =
      [some 1000, some 2000, some 3000, some 4000, some 5000, none] :=
  ⟨(reconnect_schedule_linear_bounded
      { ws := none, reconnectAttempts := 5, maxReconnectAttempts := 5,
        reconnectDelay := 1000 } 1 7).2.2.2.1 (by decide),
   (reconnect_schedule_linear_bounded WebSocketManager.start 1 7).2.2.2.2.2⟩

/-- C7 counterexample: the claim says that after an explicit `disconnect()`
no reconnection attempt is ever made; but the `onclose` handler fired by
the close that `disconnect()` provokes schedules a retry after 1000 ms on
a fresh manager. -/
theorem disconnect_still_reconnects_cex :
    (onTransportClose (WebSocketManager.disconnect WebSocketManager.start)).2 =
      some 1000 := by
  decide

/-- C7 amended: every transport close triggers `attemptReconnect`, and a
retry is scheduled exactly when the attempt counter is below the maximum —
including closes caused by an explicit `disconnect()`, which does not
suppress the retry. -/
theorem close_always_retries_amended (m : WebSocketManager) :
    ((onTransportClose (WebSocketManager.disconnect m)).2 = (onTransportClose m).2) ∧
    ((onTransportClose m).2.isSome =
      decide (m.reconnectAttempts < m.maxReconnectAttempts)) := by
  constructor
  · by_cases hc : m.reconnectAttempts < m.maxReconnectAttempts <;>
      simp [onTransportClose, attemptReconnect, WebSocketManager.disconnect, hc]
  · by_cases hc : m.reconnectAttempts < m.maxReconnectAttempts <;>
      simp [onTransportClose, attemptReconnect, hc]

/-- C2: a `join` whose userId or contractId is missing (or falsy) is
silently dropped: the only state change is the assignment of the two
per-connection closure variables — no registration in the `clients`
registry, no presence upsert, no contract write, no broadcast and no
error reply. -/
theorem join_missing_fields_silently_dropped (s : ServerState) (w : Nat)
    (u c : Option Nat) (p : Option Position) (now freshId : Nat) (cs : ConnState)
    (hcw : lookupA s.conns w = some cs)
    (h : u = none ∨ u = some 0 ∨ c = none ∨ c = some 0) :
    handleMessage s w (.join u c p) now freshId =
      ({ s with conns := setA s.conns w { cs with userId := u, contractId := c } }, []) := by
  simp only [handleMessage, hcw]
  unfold handleJoin
  rcases h with h | h | h | h
  · subst h
    cases c <;> rfl
  · subst h
    cases c with
    | none => rfl
    | some cn => simp
  · subst h
    cases u <;> rfl
  · subst h
    cases u with
    | none => rfl
    | some un => simp

/-- C2 witness: on a freshly accepted connection, a `join` carrying a
contractId but no userId changes nothing observable — no subscription, no
presence record, no contract change, no outbound message. -/
theorem join_missing_fields_witness :
    (handleMessage acceptState 0 (InMsg.join none (some 7) none) 1 2).2 = [] ∧
    (handleMessage acceptState 0 (InMsg.join none (some 7) none) 1 2).1.clients =
      acceptState.clients ∧
    (handleMessage acceptState 0 (InMsg.join none (some 7) none) 1 2).1.presence =
      acceptState.presence ∧
    (handleMessage acceptState 0 (InMsg.join none (some 7) none) 1 2).1.contracts =
      acceptState.contracts := by
  rw [join_missing_fields_silently_dropped acceptState 0 none (some 7) none 1 2
    { userId := none, contractId := none, isOpen := true } (by decide) (Or.inl rfl)]
  exact ⟨rfl, rfl, rfl, rfl⟩

/-- C1: for every inbound event the router processes (join, cursor_move,
content_change), no emitted send is addressed to the originating
connection (the sender never receives its own echo), and the recipients of
`broadcastToContract` with the sender excluded are exactly the current
subscribers of the target document other than the sender whose transport
is open. -/
theorem broadcast_excludes_sender (s : ServerState) (w : Nat) (m : InMsg)
    (now freshId : Nat) :
    ((handleMessage s w m now freshId).2.all (fun x => decide (x.1 ≠ w)) = true) ∧
    (∀ d msg r, ((r, msg) ∈ broadcastToContract s d msg (some w)) ↔
      (r ∈ subsOf s d ∧ r ≠ w ∧ connOpen s r = true)) := by
  constructor
  · rcases hcw : lookupA s.conns w with _ | cs
    · simp [handleMessage, hcw]
    · cases m with
      | join u c p =>
        simp only [handleMessage, hcw]
        unfold handleJoin
        split
        · split
          · rfl
          · exact broadcast_all_ne _ _ _ _
        · rfl
      | cursorMove p =>
        simp only [handleMessage, hcw]
        unfold handleCursorMove
        split
        · split
          · rfl
          · exact broadcast_all_ne _ _ _ _
        · rfl
      | contentChange content wc =>
        simp only [handleMessage, hcw]
        unfold handleContentChange
        split
        · split
          · rfl
          · exact broadcast_all_ne _ _ _ _
        · rfl
  · intro d msg r
    constructor
    · intro h
      rcases mem_broadcastToContract.mp h with ⟨_, hmem, hne, hopen⟩
      exact ⟨hmem, fun hh => hne (by rw [hh]), hopen⟩
    · rintro ⟨hmem, hne, hopen⟩
      refine mem_broadcastToContract.mpr ⟨rfl, hmem, ?_, hopen⟩
      simpa using hne

/-- C1 witness: with connections 0 and 1 both subscribed to document 7, a
cursor move from 0 reaches no send addressed to 0, and 1 is a recipient of
the broadcast that excludes 0. -/
theorem broadcast_excludes_sender_witness :
    ((handleMessage joinState 0 (InMsg.cursorMove (some ⟨1, 2⟩)) 5 6).2.all
        (fun x => decide (x.1 ≠ 0)) = true) ∧
    ((1, OutMsg.cursorUpdate (some 1) (some ⟨1, 2⟩)) ∈
      broadcastToContract joinState 7 (OutMsg.cursorUpdate (some 1) (some ⟨1, 2⟩))
        (some 0)) := by
  constructor
  · exact (broadcast_excludes_sender joinState 0 (InMsg.cursorMove (some ⟨1, 2⟩)) 5 6).1
  · exact ((broadcast_excludes_sender joinState 0 (InMsg.cursorMove (some ⟨1, 2⟩)) 5 6).2
      7 (OutMsg.cursorUpdate (some 1) (some ⟨1, 2⟩)) 1).mpr (by decide)

/-- C3: two `content_change` events E1 then E2 for the same stored document
leave the Document Store with exactly E2's content and wordCount,
regardless of E1's content — each change fully replaces the stored content
with no merge. -/
theorem content_change_last_write_wins (s : ServerState) (w1 w2 d : Nat)
    (cs1 cs2 : ConnState) (K : Contract) (c1 c2 : String) (wc1 wc2 : Nat)
    (t1 f1 t2 f2 : Nat) (s1 : ServerState)
    (hcw1 : lookupA s.conns w1 = some cs1) (hcid1 : cs1.contractId = some d)
    (hcw2 : lookupA s.conns w2 = some cs2) (hcid2 : cs2.contractId = some d)
    (hd : d ≠ 0) (hK : lookupA s.contracts d = some K)
    (hs1 : s1 = (handleMessage s w1 (.contentChange c1 (some wc1)) t1 f1).1) :
    (lookupA (handleMessage s1 w2 (.contentChange c2 (some wc2)) t2 f2).1.contracts d).map
      (fun k => (k.content, k.wordCount)) = some (c2, wc2) := by
  have hconns : s1.conns = s.conns := by
    rw [hs1]
    simp only [handleMessage, hcw1]
    exact (handleContentChange_fields s w1 cs1 c1 (some wc1) t1).2
  have hcontracts1 :
      s1.contracts =
        setA s.contracts d { K with content := c1, wordCount := wc1, updatedAt := t1 } := by
    rw [hs1]
    simp only [handleMessage, hcw1]
    unfold handleContentChange
    split
    · rename_i cn hcn
      rw [hcid1] at hcn
      injection hcn with hcn
      subst hcn
      rw [if_neg hd]
      simp [updateContract, hK]
    · rename_i hcn
      rw [hcid1] at hcn
      exact Option.noConfusion hcn
  have hcl2 : lookupA s1.conns w2 = some cs2 := by
    rw [hconns]
    exact hcw2
  simp only [handleMessage, hcl2]
  unfold handleContentChange
  split
  · rename_i cn hcn
    rw [hcid2] at hcn
    injection hcn with hcn
    subst hcn
    rw [if_neg hd]
    rw [hcontracts1]
    simp [updateContract, lookupA_setA_self]
  · rename_i hcn
    rw [hcid2] at hcn
    exact Option.noConfusion hcn

/-- C3 witness: on `joinState`, contents "E1" then "E2" for document 7
leave the store holding exactly "E2" with its word count. -/
theorem content_change_last_write_wins_witness :
    (lookupA (handleMessage
        (handleMessage joinState 0 (InMsg.contentChange "E1" (some 3)) 5 110).1
        1 (InMsg.contentChange "E2" (some 4)) 6 111).1.contracts 7).map
      (fun k => (k.content, k.wordCount)) = some ("E2", 4) :=
  content_change_last_write_wins joinState 0 1 7
    { userId := some 1, contractId := some 7, isOpen := true }
    { userId := some 2, contractId := some 7, isOpen := true }
    sampleContract "E1" "E2" 3 4 5 110 6 111
    (handleMessage joinState 0 (InMsg.contentChange "E1" (some 3)) 5 110).1
    (by decide) (by decide) (by decide) (by decide) (by decide) (by decide) rfl

/-- After an upsert with `isActive := true`, the active presence list for
the document, restricted to the upserted user, is exactly one record
carrying the upserted position and the upsert's timestamp. -/
theorem upsert_listActive (m : List ((Nat × Nat) × PresenceData)) (u c : Nat)
    (p : Option Position) (t f : Nat) (hc : KeyConsistent m) (hn : KeysNodup m) :
    ((getPresenceByContract (upsertPresence m u c p true t f) c).filter
        (fun r => decide (r.userId = u))).map (fun r => (r.position, r.isActive, r.lastSeen)) =
      [(p, true, t)] := by
  have key : ∀ (rec : PresenceData), rec.userId = u → rec.contractId = c →
      rec.isActive = true → rec.position = p → rec.lastSeen = t →
      ((getPresenceByContract (setA m (u, c) rec) c).filter
          (fun r => decide (r.userId = u))).map
        (fun r => (r.position, r.isActive, r.lastSeen)) = [(p, true, t)] := by
    intro rec h1 h2 h3 h4 h5
    rw [getPresence_filter_user (setA m (u, c) rec) u c
      (keyConsistent_setA hc (by rw [h1, h2])) (keysNodup_setA _ _ hn)]
    rw [lookupA_setA_self]
    simp [h3, h4, h5]
  exact key _ rfl rfl rfl rfl rfl

/-- `upsertPresence` preserves the key/value consistency of the store. -/
theorem keyConsistent_upsert (m : List ((Nat × Nat) × PresenceData)) (u c : Nat)
    (p : Option Position) (act : Bool) (t f : Nat) (hc : KeyConsistent m) :
    KeyConsistent (upsertPresence m u c p act t f) :=
  keyConsistent_setA hc rfl

/-- `upsertPresence` preserves key distinctness. -/
theorem keysNodup_upsert (m : List ((Nat × Nat) × PresenceData)) (u c : Nat)
    (p : Option Position) (act : Bool) (t f : Nat) (hn : KeysNodup m) :
    KeysNodup (upsertPresence m u c p act t f) :=
  keysNodup_setA _ _ hn

/-- C8: upserting the same (userId, documentId, position) twice leaves
`listActive` with exactly one record for that pair, and each upsert
refreshes the record's last-seen timestamp (t1 after the first call, t2
after the second). -/
theorem upsert_idempotent_refreshes (m : List ((Nat × Nat) × PresenceData)) (u c : Nat)
    (p : Option Position) (t1 f1 t2 f2 : Nat)
    (hc : KeyConsistent m) (hn : KeysNodup m) :
    (((getPresenceByContract
          (upsertPresence (upsertPresence m u c p true t1 f1) u c p true t2 f2) c).filter
        (fun r => decide (r.userId = u))).map
      (fun r => (r.position, r.isActive, r.lastSeen)) = [(p, true, t2)]) ∧
    (((getPresenceByContract (upsertPresence m u c p true t1 f1) c).filter
        (fun r => decide (r.userId = u))).map
      (fun r => (r.position, r.isActive, r.lastSeen)) = [(p, true, t1)]) :=
  ⟨upsert_listActive _ u c p t2 f2 (keyConsistent_upsert m u c p true t1 f1 hc)
      (keysNodup_upsert m u c p true t1 f1 hn),
   upsert_listActive m u c p t1 f1 hc hn⟩

/-- C8 witness: two identical upserts into the empty store yield exactly
one active record for (1, 7) at position (2,5), stamped with the second
upsert's time. -/
theorem upsert_idempotent_witness :
    (((getPresenceByContract
          (upsertPresence (upsertPresence [] 1 7 (some ⟨2, 5⟩) true 10 100)
            1 7 (some ⟨2, 5⟩) true 11 101) 7).filter
        (fun r => decide (r.userId = 1))).map
      (fun r => (r.position, r.isActive, r.lastSeen)) = [(some ⟨2, 5⟩, true, 11)]) ∧
    (((getPresenceByContract (upsertPresence [] 1 7 (some ⟨2, 5⟩) true 10 100) 7).filter
        (fun r => decide (r.userId = 1))).map
      (fun r => (r.position, r.isActive, r.lastSeen)) = [(some ⟨2, 5⟩, true, 10)]) :=
  upsert_idempotent_refreshes [] 1 7 (some ⟨2, 5⟩) 10 100 11 101 (by decide) (by decide)

/-- C9: `removePresence` (the spec's markInactive) returns false and leaves
the store unchanged when no record exists for the pair; when a record
exists it returns true, flips only the liveness flag (the record — its
position, timestamp and id — is retained, a soft delete), and the user no
longer appears in the document's active list. -/
theorem markInactive_soft_delete (m : List ((Nat × Nat) × PresenceData)) (u c : Nat) :
    (lookupA m (u, c) = none → removePresence m u c = (m, false)) ∧
    (∀ r, lookupA m (u, c) = some r → KeyConsistent m → KeysNodup m →
      (removePresence m u c).2 = true ∧
      lookupA (removePresence m u c).1 (u, c) = some { r with isActive := false } ∧
      (getPresenceByContract (removePresence m u c).1 c).filter
          (fun x => decide (x.userId = u)) = []) := by
  constructor
  · intro h
    simp [removePresence, h]
  · intro r hr hc hn
    have hkey : (u, c) = (r.userId, r.contractId) := hc _ (lookupA_mem hr)
    refine ⟨?_, ?_, ?_⟩
    · simp [removePresence, hr]
    · simp only [removePresence, hr]
      exact lookupA_setA_self _ _ _
    · simp only [removePresence, hr]
      have hkey2 : (u, c) = (({ r with isActive := false } : PresenceData).userId,
          ({ r with isActive := false } : PresenceData).contractId) := hkey
      rw [getPresence_filter_user _ u c (keyConsistent_setA hc hkey2)
        (keysNodup_setA _ _ hn)]
      rw [lookupA_setA_self]
      simp

/-- C9 witness: on the empty store the call reports false; on a one-record
store it reports true, retains the record with only `isActive` flipped,
and the active list for document 7 no longer mentions user 1. -/
theorem markInactive_witness :
    (removePresence ([] : List ((Nat × Nat) × PresenceData)) 1 7 = ([], false)) ∧
    ((removePresence presStore 1 7).2 = true ∧
      lookupA (removePresence presStore 1 7).1 (1, 7) =
        some { presRec with isActive := false } ∧
      (getPresenceByContract (removePresence presStore 1 7).1 7).filter
          (fun x => decide (x.userId = 1)) = []) :=
  ⟨(markInactive_soft_delete [] 1 7).1 rfl,
   (markInactive_soft_delete presStore 1 7).2 presRec (by decide) (by decide) (by decide)⟩

/-- C5 counterexample: the claim says the rejoin after a drop carries the
last-known cursor position. In the concrete run, user 1's last-known
position at the drop is (2,5) (retained by the soft delete), yet the
manager's `onopen` rejoin carries the fixed position (0,0), and the
restored active record holds (0,0) ≠ (2,5). -/
theorem rejoin_position_cex :
    (connectOnOpen WebSocketManager.start 1 7).2 =
      InMsg.join (some 1) (some 7) (some ⟨0, 0⟩) ∧
    (lookupA c5srvDrop.presence (1, 7)).map (fun r => r.position) =
      some (some ⟨2, 5⟩) ∧
    (getPresenceByContract c5srvFinal.presence 7).map
        (fun r => (r.userId, r.position, r.isActive)) = [(1, some ⟨0, 0⟩, true)] ∧
    (Position.mk 0 0) ≠ (Position.mk 2 5) := by
  refine ⟨rfl, by decide, by decide, by decide⟩

/-- C5 amended: on reopen the manager re-sends `join` with the fixed
initial position (0,0) — not the last-known cursor position — and after
the server processes that rejoin, `listActive(documentId)` contains
exactly one active record for the user, carrying the position sent on
rejoin, (0,0), stamped with the rejoin's time. -/
theorem rejoin_restores_presence_amended (m : WebSocketManager) (u d : Nat)
    (s : ServerState) (w t f : Nat) (cs : ConnState)
    (hu : u ≠ 0) (hd : d ≠ 0) (hcw : lookupA s.conns w = some cs)
    (hc : KeyConsistent s.presence) (hn : KeysNodup s.presence) :
    ((connectOnOpen m u d).2 = InMsg.join (some u) (some d) (some ⟨0, 0⟩)) ∧
    (((getPresenceByContract
          (handleMessage s w (connectOnOpen m u d).2 t f).1.presence d).filter
        (fun r => decide (r.userId = u))).map
      (fun r => (r.position, r.isActive, r.lastSeen)) = [(some ⟨0, 0⟩, true, t)]) := by
  refine ⟨rfl, ?_⟩
  have hguard : ¬ (u = 0 ∨ d = 0) := by
    intro h
    rcases h with h | h
    · exact hu h
    · exact hd h
  have hpres : (handleMessage s w (connectOnOpen m u d).2 t f).1.presence =
      upsertPresence s.presence u d (some ⟨0, 0⟩) true t f := by
    show (handleMessage s w (InMsg.join (some u) (some d) (some ⟨0, 0⟩)) t f).1.presence = _
    simp only [handleMessage, hcw]
    unfold handleJoin
    dsimp only
    rw [if_neg hguard]
  rw [hpres]
  exact upsert_listActive s.presence u d (some ⟨0, 0⟩) t f hc hn

/-- C5 witness: after the concrete drop and transport reopen, processing
the manager's rejoin restores exactly one active record for user 1 on
document 7 at the rejoin position (0,0). -/
theorem rejoin_restores_presence_witness :
    ((connectOnOpen WebSocketManager.start 1 7).2 =
      InMsg.join (some 1) (some 7) (some ⟨0, 0⟩)) ∧
    (((getPresenceByContract
          (handleMessage c5srvReopen 1
            (connectOnOpen WebSocketManager.start 1 7).2 3 102).1.presence 7).filter
        (fun r => decide (r.userId = 1))).map
      (fun r => (r.position, r.isActive, r.lastSeen)) = [(some ⟨0, 0⟩, true, 3)]) :=
  rejoin_restores_presence_amended WebSocketManager.start 1 7 c5srvReopen 1 3 102
    { userId := none, contractId := none, isOpen := true }
    (by decide) (by decide) (by decide) (by decide) (by decide)

/-- C10: a `join` carrying a contractId but no userId is rejected, yet the
contractId is still recorded on the connection; a subsequent
`content_change` from that never-joined connection emits no reply for the
join, updates the stored contract's content, and broadcasts a
`content_update` with an absent userId to the document's subscribers
(excluding the sender). -/
theorem unjoined_content_change_applies (s : ServerState) (w cn : Nat)
    (p : Option Position) (t1 f1 : Nat) (content : String) (wc : Option Nat)
    (t2 f2 : Nat) (cs : ConnState) (K : Contract) (s1 : ServerState)
    (hcw : lookupA s.conns w = some cs) (hcn : cn ≠ 0)
    (hK : lookupA s.contracts cn = some K)
    (hs1 : s1 = (handleMessage s w (.join none (some cn) p) t1 f1).1) :
    ((handleMessage s w (.join none (some cn) p) t1 f1).2 = []) ∧
    ((lookupA s1.conns w).map ConnState.contractId = some (some cn)) ∧
    ((lookupA (handleMessage s1 w (.contentChange content wc) t2 f2).1.contracts cn).map
        Contract.content = some content) ∧
    ((handleMessage s1 w (.contentChange content wc) t2 f2).2 =
      broadcastToContract (handleMessage s1 w (.contentChange content wc) t2 f2).1 cn
        (.contentUpdate content none t2) (some w)) := by
  have hjoin : handleMessage s w (.join none (some cn) p) t1 f1 =
      ({ s with conns := setA s.conns w { cs with userId := none, contractId := some cn } },
        []) := by
    simp only [handleMessage, hcw]
    unfold handleJoin
    rfl
  have hs1conns : lookupA s1.conns w =
      some { cs with userId := none, contractId := some cn } := by
    rw [hs1, hjoin]
    exact lookupA_setA_self _ _ _
  have hs1contracts : s1.contracts = s.contracts := by
    rw [hs1, hjoin]
  have hstep2 : handleMessage s1 w (.contentChange content wc) t2 f2 =
      ({ s1 with contracts := updateContract s1.contracts cn content (wc.getD 0) t2 },
       broadcastToContract
         { s1 with contracts := updateContract s1.contracts cn content (wc.getD 0) t2 }
         cn (.contentUpdate content none t2) (some w)) := by
    simp only [handleMessage, hs1conns]
    unfold handleContentChange
    dsimp only
    rw [if_neg hcn]
  refine ⟨by rw [hjoin], ?_, ?_, ?_⟩
  · rw [hs1, hjoin]
    show (lookupA (setA s.conns w _) w).map ConnState.contractId = some (some cn)
    rw [lookupA_setA_self]
    rfl
  · rw [hstep2]
    show (lookupA (updateContract s1.contracts cn content (wc.getD 0) t2) cn).map
      Contract.content = some content
    rw [hs1contracts]
    simp [updateContract, hK, lookupA_setA_self]
  · rw [hstep2]

/-- C10 witness: on `joinState`, connection 0's join for document 7
without a userId is dropped but records the contractId; its following
content change writes "ghost" into document 7 and broadcasts a
`content_update` with no userId, excluding connection 0. -/
theorem unjoined_content_change_witness :
    ((handleMessage joinState 0 (.join none (some 7) none) 5 110).2 = []) ∧
    ((lookupA (handleMessage joinState 0 (.join none (some 7) none) 5 110).1.conns 0).map
        ConnState.contractId = some (some 7)) ∧
    ((lookupA (handleMessage
          (handleMessage joinState 0 (.join none (some 7) none) 5 110).1
          0 (.contentChange "ghost" (some 2)) 6 111).1.contracts 7).map
        Contract.content = some "ghost") ∧
    ((handleMessage (handleMessage joinState 0 (.join none (some 7) none) 5 110).1
        0 (.contentChange "ghost" (some 2)) 6 111).2 =
      broadcastToContract
        (handleMessage (handleMessage joinState 0 (.join none (some 7) none) 5 110).1
          0 (.contentChange "ghost" (some 2)) 6 111).1 7
        (.contentUpdate "ghost" none 6) (some 0)) :=
  unjoined_content_change_applies joinState 0 7 none 5 110 "ghost" (some 2) 6 111
    { userId := some 1, contractId := some 7, isOpen := true } sampleContract
    (handleMessage joinState 0 (.join none (some 7) none) 5 110).1
    (by decide) (by decide) (by decide) rfl

/-- C4 counterexample: the claim says a connection appears in at most one
document's subscription set after any sequence of join/close events; but
after joining document 1 and then document 2, connection 0 sits in both
sets — the second join never removes it from the first. -/
theorem subscription_not_unique_cex :
    ¬ AtMostOne (run (ServerState.mkInit [])
      [Ev.accept 0, Ev.msg 0 (InMsg.join (some 1) (some 1) none) 1 10,
       Ev.msg 0 (InMsg.join (some 1) (some 2) none) 2 11]).1 := by
  intro h
  have h12 := h 1 [0] 2 [0] 0 (by decide) (by decide) (by decide) (by decide)
  exact absurd h12 (by decide)

/-- C4 amended: after any sequence of router events, no retained
subscription set is empty (the entry is deleted when its set empties);
and provided accepted sockets are fresh and each connection's joins all
target its current document (one document per connection, which is how
the client uses a socket), every connection appears in at most one
document's subscription set. -/
theorem subscription_sets_invariant_amended (contracts0 : List (Nat × Contract))
    (evs : List Ev) :
    NoEmptySets (run (ServerState.mkInit contracts0) evs).1 ∧
    (runOK (ServerState.mkInit contracts0) evs = true →
      AtMostOne (run (ServerState.mkInit contracts0) evs).1) := by
  constructor
  · exact noEmpty_run _ evs (fun p hp => absurd hp (List.not_mem_nil p))
  · intro hok
    exact memDoc_atMostOne _
      (memDoc_run _ evs (fun d l w hdl _ => absurd hdl (List.not_mem_nil (d, l))) hok)

/-- C4 witness: a concrete well-formed trace — two connections joining
document 7 and one closing — retains no empty set and keeps every
connection in at most one set. -/
theorem subscription_sets_invariant_witness :
    NoEmptySets (run (ServerState.mkInit []) c4goodTrace).1 ∧
    AtMostOne (run (ServerState.mkInit []) c4goodTrace).1 :=
  ⟨(subscription_sets_invariant_amended [] c4goodTrace).1,
   (subscription_sets_invariant_amended [] c4goodTrace).2 (by decide)⟩
